import Mathlib

/-!
Verification development for the molex-ftp FTP client.

The definitions below are shallow embeddings of the protocol engine found
in the repository sources:

* `src/unnamed/part_003` — the monolithic `FTPClient` (reply framer in the
  socket data handler, `_sendCommand` correlator, `_enterPassiveMode`
  passive negotiation, transfer orchestration in `upload`/`download`/`list`).
* `src/lib/commands.js` — two concatenated variants of the `FTPCommands`
  layer (reply-waiting transfer joins in the first variant, the optimistic
  v2.2.0 joins in the second variant, `stat`/`exists`/`ensureDir`).
* `src/lib/performance.js` (second embedded document) — the path utilities
  `normalizePath`, `getParentDir`, `maskPassword`.

Strings on the wire are modelled as `List Char`; JavaScript `parseInt` is
modelled by `jsParseInt` (returning `none` for `NaN`).
-/

deriving instance DecidableEq for Except

namespace MolexFtp

/-! ## Basic character and list utilities -/

/-- Decimal digit test, the character class `\d` of the JavaScript regexes
and the digits accepted by `parseInt`. -/
def isDigitCh (c : Char) : Bool := 48 ≤ c.toNat && c.toNat ≤ 57

/-- Numeric value of a run of decimal digits, most significant first;
the value `parseInt` assigns to a pure digit string. -/
def natOfDigits (ds : List Char) : Nat :=
  ds.foldl (fun a c => a * 10 + (c.toNat - 48)) 0

/-- Whitespace skipped by JavaScript `parseInt` before the number. -/
def jsWS (c : Char) : Bool :=
  c = ' ' || c = '\t' || c = '\n' || c = '\r' || c = '\x0b' || c = '\x0c'

/-- Value of the leading digit run of `s`, `none` when `s` does not start
with a digit (the `NaN` case of `parseInt`). -/
def leadingDigitsVal (s : List Char) : Option Nat :=
  let run := s.takeWhile isDigitCh
  if run.isEmpty then none else some (natOfDigits run)

/-- JavaScript `parseInt(s)` (radix 10): skip whitespace, optional sign,
then the maximal leading digit run; `none` models `NaN`. -/
def jsParseInt (s : List Char) : Option Int :=
  match s.dropWhile jsWS with
  | [] => none
  | c :: rest =>
    if c = '-' then (leadingDigitsVal rest).map (fun n => -(n : Int))
    else if c = '+' then (leadingDigitsVal rest).map (fun n => (n : Int))
    else (leadingDigitsVal (c :: rest)).map (fun n => (n : Int))

/-- `hay` starts with `need` (JavaScript `String.prototype.startsWith`). -/
def startsWithL : List Char → List Char → Bool
  | _, [] => true
  | [], _ :: _ => false
  | a :: as, b :: bs => a = b && startsWithL as bs

/-- `hay` contains `need` as a contiguous substring
(JavaScript `String.prototype.includes`). -/
def containsSub : List Char → List Char → Bool
  | [], need => startsWithL [] need
  | a :: t, need => startsWithL (a :: t) need || containsSub t need

/-! ## Reply framer (src/unnamed/part_003, lines 55-62)

The socket data handler appends each chunk to `this.buffer`, splits on
`"\r\n"` and pops the trailing partial line back into the buffer:

    this.buffer += data;
    const lines = this.buffer.split('\r\n');
    this.buffer = lines.pop();

`splitCRLF s` returns the complete lines (every piece of
`s.split("\r\n")` except the last) together with the popped carry-over. -/

/-- Prepend character `a` to the first line of `p` (or to the carry-over
when `p` has no complete line yet). -/
def consLine (a : Char) (p : List (List Char) × List Char) :
    List (List Char) × List Char :=
  match p.1 with
  | [] => ([], a :: p.2)
  | l :: ls => ((a :: l) :: ls, p.2)

def splitCRLF : List Char → List (List Char) × List Char
  | [] => ([], [])
  | [a] => ([], [a])
  | a :: b :: rest =>
    if a = '\r' ∧ b = '\n' then
      ([] :: (splitCRLF rest).1, (splitCRLF rest).2)
    else
      consLine a (splitCRLF (b :: rest))

/-- Framer state: the carry-over buffer plus the lines emitted so far. -/
structure FramerState where
  buffer : List Char
  lines : List (List Char)
deriving DecidableEq

/-- One firing of the socket data handler (src/unnamed/part_003 lines 55-58):
append the chunk to the buffer, split on CRLF, pop the carry-over. -/
def feedChunk (st : FramerState) (data : List Char) : FramerState :=
  ⟨(splitCRLF (st.buffer ++ data)).2,
   st.lines ++ (splitCRLF (st.buffer ++ data)).1⟩

/-- Feed a sequence of chunks to the framer in order. -/
def feedChunks : FramerState → List (List Char) → FramerState
  | st, [] => st
  | st, c :: cs => feedChunks (feedChunk st c) cs

/-- The CRLF terminator occurs nowhere in `s`. -/
def noCRLF (s : List Char) : Bool := !containsSub s ['\r', '\n']

/-! ## Reply classification and the command-reply correlator
(src/unnamed/part_003, `_sendCommand`, lines 104-153)

`_sendCommand` registers a `response` listener (one `PendingCommand`) and
arms a timeout.  Each incoming complete line is handed to every registered
listener in registration order.  The listener clears the timeout on every
line, treats a line whose fourth character is a space as terminal, keeps
waiting on a tolerated 1xx, resolves 2xx/3xx, and rejects otherwise.  The
timeout, when it fires while still armed, removes the listener and rejects
with `Command timeout: <command>` (password-masked). -/

/-- An in-flight command: the command text, whether preliminary (1xx)
terminal replies are tolerated, and whether its timeout is still armed
(`clearTimeout` has not yet run). -/
structure PendingCommand where
  command : List Char
  allowPreliminary : Bool
  timerArmed : Bool
deriving DecidableEq

/-- How a pending command's promise settles. -/
inductive Settlement where
  | success (code : Int) (message : List Char)
  | ftpError (code : Option Int) (message : List Char)
  | timedOut (command : List Char)
  | notConnected
deriving DecidableEq

/-- `lib/utils.js maskPassword` / part_003 line 112: a `PASS` argument is
replaced by a fixed mask before any logging or error message. -/
def maskPassword (cmd : List Char) : List Char :=
  if startsWithL cmd ("PASS ".data) then ("PASS ********".data) else cmd

/-- The body of `responseHandler` (part_003 lines 120-148) for one listener
and one complete line: returns the listener's continuation (`none` when it
removed itself) and the settlement it produced, if any.

The timeout is cleared (`timerArmed := false`) on every delivered line,
mirroring the unconditional `clearTimeout(timeoutId)` at line 121. -/
def handleLine (pc : PendingCommand) (line : List Char) :
    Option PendingCommand × Option Settlement :=
  if (line.drop 3).head? = some ' ' then
    match jsParseInt (line.take 3) with
    | some v =>
      if 100 ≤ v ∧ v < 200 ∧ pc.allowPreliminary = true then
        (some { pc with timerArmed := false }, none)
      else if 200 ≤ v ∧ v < 400 then
        (none, some (.success v (line.drop 4)))
      else
        (none, some (.ftpError (some v) (line.drop 4)))
    | none => (none, some (.ftpError none (line.drop 4)))
  else
    (some { pc with timerArmed := false }, none)

/-- A control channel: connection flag plus the registered `response`
listeners in registration order. -/
structure ChannelState where
  connected : Bool
  pending : List PendingCommand
deriving DecidableEq

/-- `_sendCommand` issuance (part_003 lines 104-118, 150-152): reject
immediately when not connected, otherwise register a listener with an
armed timeout.  There is no check for an already-outstanding command.
The optional settlement is the immediate rejection of the new command. -/
def sendCommand (s : ChannelState) (cmd : List Char) (allowPre : Bool) :
    ChannelState × Option Settlement :=
  if s.connected then
    ({ s with pending := s.pending ++ [⟨cmd, allowPre, true⟩] }, none)
  else
    (s, some .notConnected)

/-- Deliver one complete line to every registered listener in order
(the `response` event dispatch).  Returns the new channel state and the
settlements produced, each tagged with the settling command's text. -/
def deliverLine (s : ChannelState) (line : List Char) :
    ChannelState × List (List Char × Settlement) :=
  ⟨{ s with pending :=
      (s.pending.map (fun pc => (handleLine pc line).1)).reduceOption },
   (s.pending.map (fun pc =>
      ((handleLine pc line).2).map (fun st => (pc.command, st)))).reduceOption⟩

/-- Deliver a sequence of lines, accumulating the settlements. -/
def runLines : ChannelState → List (List Char) → ChannelState × List (List Char × Settlement)
  | s, [] => (s, [])
  | s, l :: ls =>
    ((runLines (deliverLine s l).1 ls).1,
     (deliverLine s l).2 ++ (runLines (deliverLine s l).1 ls).2)

/-- Firing of the `i`-th pending command's timeout (part_003 lines 115-118):
only an armed timer can fire; it removes the listener and rejects with
`Command timeout: <masked command>`. -/
def fireTimeout (s : ChannelState) (i : Nat) : ChannelState × Option Settlement :=
  match s.pending.get? i with
  | some pc =>
    if pc.timerArmed then
      ({ s with pending := s.pending.take i ++ s.pending.drop (i + 1) },
       some (.timedOut (maskPassword pc.command)))
    else
      (s, none)
  | none => (s, none)

/-! ## Passive-mode negotiation (src/unnamed/part_003, lines 159-171)

`_enterPassiveMode` matches the reply message against
`/\((\d+),(\d+),(\d+),(\d+),(\d+),(\d+)\)/` and throws
`Failed to parse PASV response` when there is no match; otherwise the
endpoint is `host = m1.m2.m3.m4`, `port = parseInt(m5)*256 + parseInt(m6)`. -/

structure PassiveEndpoint where
  host : List Char
  port : Nat
deriving DecidableEq

inductive PasvFailure where
  | malformedPassiveReply
deriving DecidableEq

/-- Parse `n` comma-separated nonempty digit groups; returns the groups and
the remaining input.  Digit runs are maximal, which coincides with the
greedy `(\d+)` of the source regex because each group must be followed by
a literal `,` or `)`. -/
def parseGroups : Nat → List Char → Option (List (List Char) × List Char)
  | 0, s => some ([], s)
  | 1, s =>
    if (s.takeWhile isDigitCh).isEmpty then none
    else some ([s.takeWhile isDigitCh], s.dropWhile isDigitCh)
  | n + 2, s =>
    if (s.takeWhile isDigitCh).isEmpty then none
    else
      match s.dropWhile isDigitCh with
      | [] => none
      | c :: r =>
        if c = ',' then
          (parseGroups (n + 1) r).map
            (fun p => ((s.takeWhile isDigitCh) :: p.1, p.2))
        else none

/-- Accept a group parse when the remainder starts with `)`. -/
def afterGroups (p : Option (List (List Char) × List Char)) :
    Option (List (List Char)) :=
  match p with
  | some (ds, r) => if r.head? = some ')' then some ds else none
  | none => none

/-- Try to match the six-group pattern starting exactly here:
`(` then six comma-separated digit runs then `)`. -/
def matchPasvAt (s : List Char) : Option (List (List Char)) :=
  match s with
  | [] => none
  | c :: rest =>
    if c = '(' then afterGroups (parseGroups 6 rest) else none

/-- First hit wins, as in a leftmost regex search. -/
def orTry (a b : Option (List (List Char))) : Option (List (List Char)) :=
  match a with
  | some ds => some ds
  | none => b

/-- Leftmost regex search: try every start position from the left. -/
def scanPasv : List Char → Option (List (List Char))
  | [] => none
  | c :: rest => orTry (matchPasvAt (c :: rest)) (scanPasv rest)

/-- Build the endpoint exactly as lines 167-168 do. -/
def pasvEndpointOf (ds : List (List Char)) : PassiveEndpoint :=
  match ds with
  | [d1, d2, d3, d4, d5, d6] =>
    ⟨d1 ++ '.' :: (d2 ++ '.' :: (d3 ++ '.' :: d4)),
     natOfDigits d5 * 256 + natOfDigits d6⟩
  | _ => ⟨[], 0⟩

/-- A scan result becomes an endpoint or the `MalformedPassiveReply`
failure. -/
def endpointOr (r : Option (List (List Char))) :
    Except PasvFailure PassiveEndpoint :=
  match r with
  | none => .error .malformedPassiveReply
  | some ds => .ok (pasvEndpointOf ds)

/-- The parsing step of `_enterPassiveMode` applied to a PASV reply
message (part_003 lines 161-170). -/
def parsePasv (message : List Char) : Except PasvFailure PassiveEndpoint :=
  endpointOr (scanPasv message)

/-- The six-group numeric pattern is present in `s`: somewhere in `s`
there is a `(`, six nonempty comma-separated digit runs, and a `)`.
This is a declarative transliteration of the spec's fixed pattern,
used to state when `negotiate` must fail with `MalformedPassiveReply`. -/
def hasPasvPattern (s : List Char) : Prop :=
  ∃ pre d1 d2 d3 d4 d5 d6 post : List Char,
    s = pre ++ '(' :: (d1 ++ ',' :: (d2 ++ ',' :: (d3 ++ ',' :: (d4 ++
        ',' :: (d5 ++ ',' :: (d6 ++ ')' :: post)))))) ∧
    d1 ≠ [] ∧ d1.all isDigitCh = true ∧
    d2 ≠ [] ∧ d2.all isDigitCh = true ∧
    d3 ≠ [] ∧ d3.all isDigitCh = true ∧
    d4 ≠ [] ∧ d4.all isDigitCh = true ∧
    d5 ≠ [] ∧ d5.all isDigitCh = true ∧
    d6 ≠ [] ∧ d6.all isDigitCh = true

/-- Comma-join of digit groups, used to state scanner soundness. -/
def joinGroups : List (List Char) → List Char
  | [] => []
  | [d] => d
  | d :: ds => d ++ ',' :: joinGroups ds

/-! ## Path utilities (`lib/utils.js`, embedded in src/lib/performance.js) -/

/-- `normalizePath`: replace backslashes by slashes, then collapse runs of
slashes (`path.replace(/\\/g,'/').replace(/\/+/g,'/')`). -/
def collapseSlashes : List Char → List Char
  | [] => []
  | [c] => [c]
  | a :: b :: rest =>
    if a = '/' ∧ b = '/' then collapseSlashes (b :: rest)
    else a :: collapseSlashes (b :: rest)

def normalizePath (p : List Char) : List Char :=
  collapseSlashes (p.map (fun c => if c = '\\' then '/' else c))

/-- Everything strictly before the last `/` of `s`
(`s.substring(0, s.lastIndexOf('/'))`, empty when there is no slash). -/
def beforeLastSlash (s : List Char) : List Char :=
  ((s.reverse.dropWhile (fun c => c ≠ '/')).drop 1).reverse

/-- `lib/utils.js getParentDir`: normalize, then everything before the last
slash; `/` when the last slash is at index 0 or absent. -/
def getParentDir (fp : List Char) : List Char :=
  if beforeLastSlash (normalizePath fp) = [] then ("/".data)
  else beforeLastSlash (normalizePath fp)

/-- The parent computation inside `ensureDir`
(`normalized.substring(0, normalized.lastIndexOf('/')) || '/'`). -/
def parentOfJS (s : List Char) : List Char :=
  if beforeLastSlash s = [] then ("/".data) else beforeLastSlash s

/-- The file-path auto-detection regex `/\.[^./\\]+$/` of the second
`ensureDir` variant (src/lib/commands.js line 797). -/
def hasFileExt (p : List Char) : Bool :=
  let r := p.reverse
  let run := r.takeWhile (fun c => ¬(c = '.' ∨ c = '/' ∨ c = '\\'))
  !run.isEmpty && ((r.drop run.length).head? == some '.')

/-- Last segment of a path: `path.split('/').pop()`. -/
def splitOnChar (sep : Char) : List Char → List (List Char)
  | [] => [[]]
  | c :: rest =>
    if c = sep then [] :: splitOnChar sep rest
    else
      match splitOnChar sep rest with
      | [] => [[c]]
      | l :: ls => (c :: l) :: ls

def lastSegment (p : List Char) : List Char :=
  (splitOnChar '/' p).getLastD []

/-! ## Recursive directory creation
(`ensureDir`, src/lib/commands.js lines 795-839; the first variant at
lines 355-397 behaves identically on directory paths)

The server is abstracted by two oracles: `cdOk p` tells whether `CWD p`
succeeds, and `mkdErr p` is `none` when `MKD p` succeeds and
`some message` when it fails with that error message. -/

inductive FtpCmd where
  | cwd (p : List Char)
  | mkd (p : List Char)
deriving DecidableEq

def isMkd : FtpCmd → Bool
  | .mkd _ => true
  | .cwd _ => false

/-- Fuelled embedding of `ensureDir(path, recursive)`: returns the trace of
issued `CWD`/`MKD` commands and the overall outcome (an `MKD` failure whose
message contains neither `550` nor `exists` is rethrown).  The fuel only
bounds the parent recursion; it is never exhausted on inputs on which the
original recursion terminates. -/
def ensureDirFuel (cdOk : List Char → Bool) (mkdErr : List Char → Option (List Char)) :
    Nat → List Char → Bool → List FtpCmd × Except (List Char) Unit
  | 0, _, _ => ([], .error ("out of fuel".data))
  | fuel + 1, path, recursive =>
    let target := if hasFileExt path then getParentDir path else path
    if target = [] ∨ target = ".".data ∨ target = "/".data then ([], .ok ())
    else
      let normalized := normalizePath target
      if normalized = "/".data ∨ normalized = ".".data then ([], .ok ())
      else if cdOk normalized then ([.cwd normalized], .ok ())
      else
        let rec1 :=
          if recursive ∧
              parentOfJS normalized ≠ "/".data ∧ parentOfJS normalized ≠ ".".data then
            ensureDirFuel cdOk mkdErr fuel (parentOfJS normalized) true
          else ([], .ok ())
        match rec1.2 with
        | .error e => (.cwd normalized :: rec1.1, .error e)
        | .ok _ =>
          match mkdErr normalized with
          | none => (.cwd normalized :: (rec1.1 ++ [.mkd normalized]), .ok ())
          | some msg =>
            if containsSub msg ("550".data) ∨ containsSub msg ("exists".data) then
              (.cwd normalized :: (rec1.1 ++ [.mkd normalized]), .ok ())
            else
              (.cwd normalized :: (rec1.1 ++ [.mkd normalized]), .error msg)

/-- `ensureDir(path)` with the default `recursive = true`. -/
def ensureDir (cdOk : List Char → Bool) (mkdErr : List Char → Option (List Char))
    (path : List Char) : List FtpCmd × Except (List Char) Unit :=
  ensureDirFuel cdOk mkdErr (path.length + 1) path true

/-! ## stat / exists (src/lib/commands.js lines 750-786)

`stat` probes `SIZE`, falls back to a `PWD`/`CWD`/`CWD`-back probe, falls
back to listing the parent directory, and finally reports non-existence;
each fallback is a `catch` arm.  The sub-operations are abstracted as
oracles returning `Except`. -/

structure StatInfo where
  pathExists : Bool
  size : Option Int
  isFile : Option Bool
  isDirectory : Option Bool
deriving DecidableEq

/-- Results of the sub-operations `stat` awaits, one field per primitive:
`sizeRes p` for `size(p)`, `pwdRes` for `pwd()`, `cdRes p` for `cd(p)`,
`listRes p` for `list(p)`.  Errors carry the thrown message. -/
structure FtpOracle where
  sizeRes : List Char → Except (List Char) Int
  pwdRes : Except (List Char) (List Char)
  cdRes : List Char → Except (List Char) Unit
  listRes : List Char → Except (List Char) (List Char)

/-- The directory probe inside `stat` (lines 768-771): `pwd()`, `cd(path)`,
then `cd` back to the original directory; any failure aborts the probe. -/
def cdProbe (o : FtpOracle) (path : List Char) : Except (List Char) Unit :=
  match o.pwdRes with
  | .error e => .error e
  | .ok cur =>
    match o.cdRes path with
    | .error e => .error e
    | .ok _ =>
      match o.cdRes cur with
      | .error e => .error e
      | .ok _ => .ok ()

/-- `listing.split('\n').some(line => line.includes(basename))` (line 779). -/
def foundIn (listing path : List Char) : Bool :=
  (splitOnChar '\n' listing).any (fun l => containsSub l (lastSegment path))

/-- `stat(path)` (lines 760-786). -/
def statJS (o : FtpOracle) (path : List Char) : Except (List Char) StatInfo :=
  match o.sizeRes path with
  | .ok n => .ok ⟨true, some n, some true, some false⟩
  | .error _ =>
    match cdProbe o path with
    | .ok _ => .ok ⟨true, none, some false, some true⟩
    | .error _ =>
      match o.listRes (getParentDir path) with
      | .ok listing => .ok ⟨foundIn listing path, none, none, none⟩
      | .error _ => .ok ⟨false, none, none, none⟩

/-- `exists(path) = (await stat(path)).exists` (lines 750-753). -/
def existsJS (o : FtpOracle) (path : List Char) : Except (List Char) Bool :=
  (statJS o path).map (fun i => i.pathExists)

/-! ## Transfer joins (store / retrieve / list)

Two join strategies exist in the sources.

The reply-waiting join (part_003 `upload`/`download`/`list` lines 202-222,
255-279, 308-325; first src/lib/commands.js variant lines 49-69, 105-128,
226-243): after the data socket closes, a `finalHandler` listens for a
completion code; meanwhile the pending `STOR`/`RETR`/`LIST` command issued
through `sendCommand(cmd, true)` still has its own listener whose rejection
is forwarded by `.catch(reject)`.  Whichever settles first wins.  If the
secondary deadline elapses unsettled: download resolves only when bytes
arrived (otherwise it stays pending forever), list resolves the collected
listing, upload resolves.

The optimistic v2.2.0 join (second src/lib/commands.js variant lines
463-468, 515-521, 563-569, 627-632): the transfer command is written raw
to the socket with no listener, and the close handler resolves the
collected data unconditionally shortly after the data socket closes. -/

inductive TransferKind where
  | store
  | retrieve
  | listdir
deriving DecidableEq

inductive TransferOutcome where
  | done (data : List Char)
  | failed (code : Option Int) (message : List Char)
  | stillPending
deriving DecidableEq

/-- Does the parsed code open the `code === 226 || code === 250` arm? -/
def isFinalOk (c : Option Int) : Bool := c = some 226 || c = some 250

/-- Does the parsed code open the `code >= 400` arm? (`false` for NaN.) -/
def codeGe400 (c : Option Int) : Bool :=
  match c with
  | some v => 400 ≤ v
  | none => false

/-- Reply-waiting join, run from the moment the data socket closes:
`pc?` is the still-registered listener of the transfer command (if any),
`lines` are the complete control-channel lines arriving before the
secondary deadline, `chunks` the bytes collected from the data socket.
An empty `lines` suffix means the secondary deadline elapsed. -/
def runWaitingJoin (kind : TransferKind) (chunks : List Char) :
    Option PendingCommand → List (List Char) → TransferOutcome
  | _, [] =>
    match kind with
    | .retrieve => if chunks.isEmpty then .stillPending else .done chunks
    | .listdir => .done chunks
    | .store => .done []
  | pc?, line :: rest =>
    let step :=
      match pc? with
      | some pc => handleLine pc line
      | none => (none, none)
    match step.2 with
    | some (.ftpError c m) => .failed c m
    | _ =>
      if isFinalOk (jsParseInt (line.take 3)) then
        .done (match kind with | .store => [] | _ => chunks)
      else if kind ≠ .listdir ∧ codeGe400 (jsParseInt (line.take 3)) then
        .failed (jsParseInt (line.take 3)) (line.drop 4)
      else
        runWaitingJoin kind chunks step.1 rest

/-- Optimistic v2.2.0 join: the close handler resolves the collected data
unconditionally (`setTimeout(() => resolve(result), 10)`); no listener
ever observes the control-channel lines. -/
def runOptimisticJoin (kind : TransferKind) (chunks : List Char)
    (_linesAfterClose : List (List Char)) : TransferOutcome :=
  match kind with
  | .store => .done []
  | _ => .done chunks

theorem splitCRLF_cons_cons (a b : Char) (rest : List Char) :
    splitCRLF (a :: b :: rest) =
      if a = '\r' ∧ b = '\n' then
        ([] :: (splitCRLF rest).1, (splitCRLF rest).2)
      else
        consLine a (splitCRLF (b :: rest)) := by
  rw [splitCRLF]

/-- When no complete line was found, the carry-over is the whole input. -/
theorem splitCRLF_carry_of_no_line (s : List Char)
    (h : (splitCRLF s).1 = []) : (splitCRLF s).2 = s := by
  induction s using splitCRLF.induct with
  | case1 => simp [splitCRLF]
  | case2 a => simp [splitCRLF]
  | case3 a b rest hsep ih =>
    rw [splitCRLF_cons_cons, if_pos hsep] at h
    simp at h
  | case4 a b rest hsep ih =>
    rw [splitCRLF_cons_cons, if_neg hsep] at h ⊢
    rcases hq : (splitCRLF (b :: rest)).1 with _ | ⟨l, ls⟩
    · simp only [consLine, hq] at h ⊢
      simp [ih hq]
    · simp [consLine, hq] at h

/-- Splitting on CRLF is a stream morphism: the lines of `x ++ y` are the
lines of `x` followed by the lines of `x`'s carry-over prepended to `y`,
and the carries agree.  This is the engine of the framer's
chunk-boundary invariance, including a terminator split across chunks. -/
theorem splitCRLF_append (x y : List Char) :
    splitCRLF (x ++ y) =
      ((splitCRLF x).1 ++ (splitCRLF ((splitCRLF x).2 ++ y)).1,
       (splitCRLF ((splitCRLF x).2 ++ y)).2) := by
  induction x using splitCRLF.induct with
  | case1 => simp [splitCRLF]
  | case2 a => simp [splitCRLF]
  | case3 a b rest hsep ih =>
    simp only [List.cons_append, splitCRLF_cons_cons, if_pos hsep]
    simp only [ih, List.cons_append]
  | case4 a b rest hsep ih =>
    simp only [List.cons_append, splitCRLF_cons_cons, if_neg hsep]
    rcases hq : (splitCRLF (b :: rest)).1 with _ | ⟨l, ls⟩
    · have hc : (splitCRLF (b :: rest)).2 = b :: rest :=
        splitCRLF_carry_of_no_line _ hq
      conv_rhs => simp only [consLine, hq]
      simp only [hc, List.nil_append, List.cons_append,
        splitCRLF_cons_cons, if_neg hsep]
    · have h1 : splitCRLF (b :: (rest ++ y)) =
          (l :: (ls ++ (splitCRLF ((splitCRLF (b :: rest)).2 ++ y)).1),
           (splitCRLF ((splitCRLF (b :: rest)).2 ++ y)).2) := by
        have h2 := ih
        simp only [List.cons_append] at h2
        rw [h2, hq]
        simp
      simp only [consLine, h1, hq, List.cons_append, List.append_assoc]

/-- Feeding two chunks in sequence equals feeding their concatenation. -/
theorem feedChunk_feedChunk (st : FramerState) (a b : List Char) :
    feedChunk (feedChunk st a) b = feedChunk st (a ++ b) := by
  simp only [feedChunk, ← List.append_assoc]
  rw [splitCRLF_append (st.buffer ++ a) b]
  simp [List.append_assoc]

/-- A string without the CRLF terminator splits into no lines, with the
whole string as carry-over. -/
theorem splitCRLF_of_noCRLF (s : List Char) (h : noCRLF s = true) :
    splitCRLF s = ([], s) := by
  induction s using splitCRLF.induct with
  | case1 => simp [splitCRLF]
  | case2 a => simp [splitCRLF]
  | case3 a b rest hsep ih =>
    exfalso
    obtain ⟨ha, hb⟩ := hsep
    subst ha hb
    simp [noCRLF, containsSub, startsWithL] at h
  | case4 a b rest hsep ih =>
    have htail : noCRLF (b :: rest) = true := by
      simp only [noCRLF, containsSub, Bool.not_eq_true', Bool.or_eq_false_iff] at h ⊢
      exact h.2
    rw [splitCRLF_cons_cons, if_neg hsep, ih htail]
    simp [consLine]

theorem feedChunks_cons (st : FramerState) (c : List Char) (cs : List (List Char)) :
    feedChunks st (c :: cs) = feedChunks (feedChunk st c) cs := rfl

/-- Folding the framer over a nonempty chunk list equals one feed of the
concatenation. -/
theorem feedChunks_eq_feedChunk_join (cs : List (List Char)) :
    ∀ (st : FramerState) (c : List Char),
      feedChunks st (c :: cs) = feedChunk st (c :: cs).flatten := by
  induction cs with
  | nil => intro st c; simp [feedChunks, List.flatten]
  | cons c2 cs ih =>
    intro st c
    rw [feedChunks_cons, ih (feedChunk st c) c2, feedChunk_feedChunk]
    simp [List.flatten]

/-- C4: for every reply byte sequence and every partition of it into
chunks (including partitions splitting the CRLF terminator), feeding the
chunks in order yields the same lines (and carry-over) as feeding the
whole sequence as one chunk; and a chunk that completes no terminator
yields zero lines and is wholly retained in the carry-over buffer. -/
theorem framer_chunking_invariance :
    (∀ (st : FramerState) (c : List Char) (cs : List (List Char)),
       feedChunks st (c :: cs) = feedChunk st (c :: cs).flatten)
    ∧ (∀ (st : FramerState) (data : List Char),
         noCRLF (st.buffer ++ data) = true →
         feedChunk st data = ⟨st.buffer ++ data, st.lines⟩) := by
  constructor
  · intro st c cs
    exact feedChunks_eq_feedChunk_join cs st c
  · intro st data h
    simp [feedChunk, splitCRLF_of_noCRLF _ h]

/-- Witness for C4 at concrete inputs, with the CRLF terminator split
across the chunk boundary. -/
theorem framer_chunking_invariance_witness :
    feedChunks ⟨[], []⟩ ["ab\r".data, "\ncd".data]
      = feedChunk ⟨[], []⟩ (["ab\r".data, "\ncd".data].flatten)
    ∧ feedChunk ⟨"x".data, []⟩ ("yz".data) = ⟨"xyz".data, []⟩ := by
  refine ⟨framer_chunking_invariance.1 _ _ _, ?_⟩
  have h := framer_chunking_invariance.2 ⟨"x".data, []⟩ ("yz".data) (by decide)
  simpa using h

/-- C2 counterexample: `_sendCommand` has no single-flight guard.  With one
command pending, a second send is registered without any failure (in
particular no `ProtocolViolation`), leaving two PendingCommands on the
channel — the claimed fail-fast behavior and the at-most-one invariant are
both false of the code. -/
theorem second_send_no_protocol_violation :
    (sendCommand (sendCommand ⟨true, []⟩ ("LIST .".data) true).1
        ("NOOP".data) false).2 = none
    ∧ (sendCommand (sendCommand ⟨true, []⟩ ("LIST .".data) true).1
        ("NOOP".data) false).1.pending.length = 2 := by
  decide

/-- C2 amended: a second send while one command is pending does not fail —
it appends a second listener — and the first pending command's eventual
resolution is unchanged: on any delivered line the two listeners settle
independently with the first command's settlements first, and the first
command's timeout fires exactly as it would alone. -/
theorem second_send_preserves_first_resolution :
    (∀ (p : PendingCommand) (cmd : List Char) (t : Bool),
       (sendCommand ⟨true, [p]⟩ cmd t).2 = none
       ∧ (sendCommand ⟨true, [p]⟩ cmd t).1.pending = [p, ⟨cmd, t, true⟩])
    ∧ (∀ (b : Bool) (p q : PendingCommand) (line : List Char),
       (deliverLine ⟨b, [p, q]⟩ line).2
         = (deliverLine ⟨b, [p]⟩ line).2 ++ (deliverLine ⟨b, [q]⟩ line).2
       ∧ (deliverLine ⟨b, [p, q]⟩ line).1.pending
         = (deliverLine ⟨b, [p]⟩ line).1.pending
           ++ (deliverLine ⟨b, [q]⟩ line).1.pending)
    ∧ (∀ (b : Bool) (p q : PendingCommand),
       (fireTimeout ⟨b, [p, q]⟩ 0).2 = (fireTimeout ⟨b, [p]⟩ 0).2) := by
  refine ⟨?_, ?_, ?_⟩
  · intro p cmd t
    simp [sendCommand]
  · intro b p q line
    rcases h1 : handleLine p line with ⟨k1, s1⟩
    rcases h2 : handleLine q line with ⟨k2, s2⟩
    cases k1 <;> cases s1 <;> cases k2 <;> cases s2 <;>
      simp [deliverLine, h1, h2, List.reduceOption]
  · intro b p q
    by_cases h : p.timerArmed = true <;> simp [fireTimeout, h]

/-- C3 (code bug evaluation): `responseHandler` clears the command timeout
on every delivered line (part_003 line 121).  After a `RETR` is sent
tolerantly and a single continuation line `230-Welcome` arrives, the
listener stays registered with its timer disarmed, so the timeout can
never fire again and no `CommandTimeout` is possible — the command is
wedged, contrary to the claim.  When no line at all arrives, the timeout
does fire with the command's (masked) name, the listener is discarded,
and a new command is accepted immediately. -/
theorem continuation_line_disarms_timeout :
    (deliverLine (sendCommand ⟨true, []⟩ ("RETR missing.txt".data) true).1
        ("230-Welcome".data)).2 = []
    ∧ (deliverLine (sendCommand ⟨true, []⟩ ("RETR missing.txt".data) true).1
        ("230-Welcome".data)).1.pending
      = [⟨"RETR missing.txt".data, true, false⟩]
    ∧ fireTimeout ⟨true, [⟨"RETR missing.txt".data, true, false⟩]⟩ 0
      = (⟨true, [⟨"RETR missing.txt".data, true, false⟩]⟩, none)
    ∧ fireTimeout (sendCommand ⟨true, []⟩ ("RETR missing.txt".data) true).1 0
      = (⟨true, []⟩, some (.timedOut ("RETR missing.txt".data)))
    ∧ (sendCommand
        (fireTimeout (sendCommand ⟨true, []⟩ ("RETR missing.txt".data) true).1 0).1
        ("NOOP".data) false).2 = none := by
  decide

/-- C5: semantics of a terminal reply line (fourth character a space) with
a parsed numeric code: a tolerated 1xx keeps the listener waiting; codes
200–399 resolve success with code and message; codes ≥ 400 reject with
that code and message; any non-1xx terminal reply settles the command; and
without tolerance the first terminal reply always settles it. -/
theorem correlator_terminal_reply_semantics
    (pc : PendingCommand) (line : List Char) (v : Int)
    (hsep : (line.drop 3).head? = some ' ')
    (hcode : jsParseInt (line.take 3) = some v) :
    (pc.allowPreliminary = true → 100 ≤ v → v < 200 →
       handleLine pc line = (some { pc with timerArmed := false }, none))
    ∧ (200 ≤ v → v < 400 →
       handleLine pc line = (none, some (.success v (line.drop 4))))
    ∧ (400 ≤ v →
       handleLine pc line = (none, some (.ftpError (some v) (line.drop 4))))
    ∧ (¬(100 ≤ v ∧ v < 200) → (handleLine pc line).1 = none)
    ∧ (pc.allowPreliminary = false → (handleLine pc line).1 = none) := by
  unfold handleLine
  rw [if_pos hsep, hcode]
  simp only []
  refine ⟨?_, ?_, ?_, ?_, ?_⟩
  · intro ha h1 h2
    rw [if_pos ⟨h1, h2, ha⟩]
  · intro h1 h2
    rw [if_neg (by rintro ⟨hx, hy, -⟩; omega), if_pos ⟨h1, h2⟩]
  · intro h1
    rw [if_neg (by rintro ⟨hx, hy, -⟩; omega),
        if_neg (by rintro ⟨hx, hy⟩; omega)]
  · intro h1
    rw [if_neg (by rintro ⟨hx, hy, -⟩; exact h1 ⟨hx, hy⟩)]
    split_ifs <;> rfl
  · intro ha
    rw [if_neg (by rintro ⟨-, -, hx⟩; rw [ha] at hx; exact Bool.false_ne_true hx)]
    split_ifs <;> rfl

/-- Witness for C5 at concrete terminal lines `150`, `226` and `550`. -/
theorem correlator_terminal_reply_semantics_witness :
    handleLine ⟨"RETR f".data, true, true⟩ ("150 Opening data connection".data)
      = (some ⟨"RETR f".data, true, false⟩, none)
    ∧ handleLine ⟨"PWD".data, false, true⟩ ("226 Done".data)
      = (none, some (.success 226 ("Done".data)))
    ∧ handleLine ⟨"RETR f".data, true, true⟩ ("550 No such file".data)
      = (none, some (.ftpError (some 550) ("No such file".data))) := by
  refine ⟨?_, ?_, ?_⟩
  · exact (correlator_terminal_reply_semantics ⟨"RETR f".data, true, true⟩
      _ 150 (by decide) (by decide)).1 rfl (by norm_num) (by norm_num)
  · exact (correlator_terminal_reply_semantics ⟨"PWD".data, false, true⟩
      _ 226 (by decide) (by decide)).2.1 (by norm_num) (by norm_num)
  · exact (correlator_terminal_reply_semantics ⟨"RETR f".data, true, true⟩
      _ 550 (by decide) (by decide)).2.2.1 (by norm_num)

/-- Auxiliary run lemma for multi-line replies: hyphen-marked lines leave
the single listener registered (timer disarmed) and produce no settlement;
the trailing terminal line settles exactly once with its own code and
message. -/
theorem runLines_single_pending_aux
    (c : List Char) (a : Bool) (t : List Char) (v : Int)
    (hsep : (t.drop 3).head? = some ' ')
    (hcode : jsParseInt (t.take 3) = some v)
    (hnp : ¬(100 ≤ v ∧ v < 200 ∧ a = true)) :
    ∀ (pre : List (List Char)), (∀ l ∈ pre, (l.drop 3).head? = some '-') →
    ∀ (b : Bool),
      runLines ⟨true, [⟨c, a, b⟩]⟩ (pre ++ [t]) =
        (⟨true, []⟩,
         [(c, if 200 ≤ v ∧ v < 400 then .success v (t.drop 4)
              else .ftpError (some v) (t.drop 4))]) := by
  intro pre
  induction pre with
  | nil =>
    intro _ b
    have hh : handleLine ⟨c, a, b⟩ t =
        (none, some (if 200 ≤ v ∧ v < 400 then .success v (t.drop 4)
                     else .ftpError (some v) (t.drop 4))) := by
      unfold handleLine
      rw [if_pos hsep, hcode]
      simp only []
      rw [if_neg hnp]
      split_ifs <;> rfl
    simp [runLines, deliverLine, hh, List.reduceOption]
  | cons l pre ih =>
    intro hpre b
    have hl : (l.drop 3).head? = some '-' := hpre l (by simp)
    have hh : handleLine ⟨c, a, b⟩ l = (some ⟨c, a, false⟩, none) := by
      unfold handleLine
      rw [if_neg (by simp [hl])]
    have hd : deliverLine ⟨true, [⟨c, a, b⟩]⟩ l = (⟨true, [⟨c, a, false⟩]⟩, []) := by
      simp [deliverLine, hh, List.reduceOption]
    have hrest := ih (fun x hx => hpre x (by simp [hx])) false
    rw [List.cons_append]
    simp only [runLines, hd, hrest]
    simp

/-- C6: a multi-line reply — hyphen-continuation lines followed by one
space-separated terminal line — settles the pending command exactly once,
using the terminal line's code and message; the continuation lines trigger
no resolution and after the terminal line the listener is gone. -/
theorem correlator_multiline_single_resolution
    (pc : PendingCommand) (pre : List (List Char)) (t : List Char) (v : Int)
    (hpre : ∀ l ∈ pre, (l.drop 3).head? = some '-')
    (hsep : (t.drop 3).head? = some ' ')
    (hcode : jsParseInt (t.take 3) = some v)
    (hnp : ¬(100 ≤ v ∧ v < 200 ∧ pc.allowPreliminary = true)) :
    runLines ⟨true, [pc]⟩ (pre ++ [t]) =
      (⟨true, []⟩,
       [(pc.command, if 200 ≤ v ∧ v < 400 then .success v (t.drop 4)
                     else .ftpError (some v) (t.drop 4))]) := by
  obtain ⟨c, a, b⟩ := pc
  exact runLines_single_pending_aux c a t v hsep hcode hnp pre hpre b

/-- Witness for C6: reply `230-Hello`, `230-More`, `230 Done` resolves
once with success 230. -/
theorem correlator_multiline_single_resolution_witness :
    runLines ⟨true, [⟨"USER u".data, false, true⟩]⟩
        ["230-Hello".data, "230-More".data, "230 Done".data]
      = (⟨true, []⟩, [("USER u".data, .success 230 ("Done".data))]) := by
  have h := correlator_multiline_single_resolution ⟨"USER u".data, false, true⟩
    ["230-Hello".data, "230-More".data] ("230 Done".data) 230
    (by decide) (by decide) (by decide) (by simp)
  simpa using h

/-- Folding decimal digits over accumulator `acc` stays below
`(acc + 1) * 10 ^ length`. -/
theorem foldl_digits_lt (ds : List Char) :
    ∀ acc : Nat, (∀ c ∈ ds, isDigitCh c = true) →
      ds.foldl (fun a c => a * 10 + (c.toNat - 48)) acc < (acc + 1) * 10 ^ ds.length := by
  induction ds with
  | nil => intro acc _; simp
  | cons c ds ih =>
    intro acc hall
    have hc : isDigitCh c = true := hall c (by simp)
    have hd : c.toNat - 48 ≤ 9 := by
      simp only [isDigitCh, Bool.and_eq_true, decide_eq_true_eq] at hc
      omega
    have h1 := ih (acc * 10 + (c.toNat - 48)) (fun x hx => hall x (by simp [hx]))
    calc List.foldl (fun a c => a * 10 + (c.toNat - 48)) (acc * 10 + (c.toNat - 48)) ds
        < (acc * 10 + (c.toNat - 48) + 1) * 10 ^ ds.length := h1
      _ ≤ ((acc + 1) * 10) * 10 ^ ds.length := by
          have : acc * 10 + (c.toNat - 48) + 1 ≤ (acc + 1) * 10 := by omega
          exact Nat.mul_le_mul_right _ this
      _ = (acc + 1) * 10 ^ (ds.length + 1) := by ring

/-- The value of a digit run is below `10 ^ length`. -/
theorem natOfDigits_lt (ds : List Char) (h : ∀ c ∈ ds, isDigitCh c = true) :
    natOfDigits ds < 10 ^ ds.length := by
  have := foldl_digits_lt ds 0 h
  simpa [natOfDigits] using this

/-- A `takeWhile` run of full length means every element satisfies the
predicate. -/
theorem all_of_takeWhile_length (p : Char → Bool) (s : List Char) :
    (s.takeWhile p).length = s.length → ∀ c ∈ s, p c = true := by
  induction s with
  | nil => intro _ c hc; cases hc
  | cons a s ih =>
    intro h c hc
    by_cases hp : p a = true
    · rw [List.takeWhile_cons, if_pos hp] at h
      simp only [List.length_cons, Nat.add_right_cancel_iff] at h
      rcases List.mem_cons.1 hc with rfl | hm
      · exact hp
      · exact ih h c hm
    · rw [List.takeWhile_cons, if_neg hp] at h
      simp at h

/-- The value of a leading digit run is below `10 ^ (run length)`. -/
theorem leadingDigitsVal_lt (s : List Char) (n : Nat)
    (h : leadingDigitsVal s = some n) :
    n < 10 ^ (s.takeWhile isDigitCh).length := by
  unfold leadingDigitsVal at h
  by_cases he : (s.takeWhile isDigitCh).isEmpty
  · rw [if_pos he] at h; cases h
  · rw [if_neg he] at h
    simp only [Option.some.injEq] at h
    rw [← h]
    exact natOfDigits_lt _ (fun c hc => List.mem_takeWhile_imp hc)

/-- A `dropWhile` result of full length is the whole list. -/
theorem dropWhile_eq_self_of_length (p : Char → Bool) (s : List Char)
    (h : (s.dropWhile p).length = s.length) : s.dropWhile p = s := by
  induction s with
  | nil => simp
  | cons a s ih =>
    by_cases hp : p a = true
    · rw [List.dropWhile_cons, if_pos hp] at h
      have hsub : (s.dropWhile p).length ≤ s.length :=
        (List.dropWhile_sublist p).length_le
      simp only [List.length_cons] at h
      omega
    · rw [List.dropWhile_cons, if_neg hp]

/-- When the first three characters of a string of length at most three are
not a three-digit run, `parseInt` yields a value below 100 whenever it
yields a value at all. -/
theorem jsParseInt_lt_100 (s : List Char) (hlen : s.length ≤ 3)
    (hnd : ¬(s.length = 3 ∧ (∀ c ∈ s, isDigitCh c = true))) :
    ∀ v : Int, jsParseInt s = some v → v < 100 := by
  intro v hv
  unfold jsParseInt at hv
  split at hv
  · cases hv
  · rename_i c rest hs1
    have hlen1 : (c :: rest).length ≤ s.length := by
      rw [← hs1]; exact (List.dropWhile_sublist jsWS).length_le
    by_cases hminus : c = '-'
    · rw [if_pos hminus] at hv
      rcases hld : leadingDigitsVal rest with _ | n
      · rw [hld] at hv; cases hv
      · rw [hld] at hv
        simp at hv
        omega
    · rw [if_neg hminus] at hv
      by_cases hplus : c = '+'
      · rw [if_pos hplus] at hv
        rcases hld : leadingDigitsVal rest with _ | n
        · rw [hld] at hv; cases hv
        · rw [hld] at hv
          simp at hv
          have hb := leadingDigitsVal_lt rest n hld
          have hrun : (rest.takeWhile isDigitCh).length ≤ 2 := by
            have h1 : (rest.takeWhile isDigitCh).length ≤ rest.length :=
              (List.takeWhile_sublist isDigitCh).length_le
            simp only [List.length_cons] at hlen1
            omega
          have hn : n < 100 :=
            lt_of_lt_of_le hb (le_trans
              (Nat.pow_le_pow_right (by norm_num) hrun) (by norm_num))
          omega
      · rw [if_neg hplus] at hv
        rcases hld : leadingDigitsVal (c :: rest) with _ | n
        · rw [hld] at hv; cases hv
        · rw [hld] at hv
          simp at hv
          have hb := leadingDigitsVal_lt (c :: rest) n hld
          by_cases hrun : ((c :: rest).takeWhile isDigitCh).length ≤ 2
          · have hn : n < 100 :=
              lt_of_lt_of_le hb (le_trans
                (Nat.pow_le_pow_right (by norm_num) hrun) (by norm_num))
            omega
          · exfalso
            have h1 : ((c :: rest).takeWhile isDigitCh).length ≤ (c :: rest).length :=
              (List.takeWhile_sublist isDigitCh).length_le
            have hl3 : ((c :: rest).takeWhile isDigitCh).length = 3 := by
              simp only [List.length_cons] at h1 hlen1 ⊢
              omega
            have hcr : (c :: rest).length = 3 := by
              simp only [List.length_cons] at h1 hlen1 ⊢
              omega
            have hds : (s.dropWhile jsWS).length = s.length := by
              rw [hs1]
              omega
            have hse : s = c :: rest := by
              rw [← dropWhile_eq_self_of_length jsWS s hds, hs1]
            exact hnd ⟨by rw [hse]; exact hcr,
              by
                rw [hse]
                exact all_of_takeWhile_length isDigitCh (c :: rest)
                  (by rw [hl3, hcr])⟩

/-- C9 counterexample: the line `abcdef` has a non-numeric status field and
is a complete reply line, yet classification produces no failure at all —
in particular no `MalformedReply` (no such error exists in the code): the
line is silently treated as a continuation and the listener keeps
waiting. -/
theorem malformed_line_no_malformed_reply :
    (deliverLine ⟨true, [⟨"PWD".data, false, true⟩]⟩ ("abcdef".data)).2 = []
    ∧ (deliverLine ⟨true, [⟨"PWD".data, false, true⟩]⟩ ("abcdef".data)).1.pending
      = [⟨"PWD".data, false, false⟩] := by
  decide

/-- C9 amended: a complete line whose first three characters are not a
three-digit code never produces a `MalformedReply` (the code has no such
error) and is never interpreted as a normally coded success reply: when
its fourth character is a space it rejects the pending command as an FTP
error whose code is `parseInt`'s result (`NaN` or a value below 100);
otherwise it is ignored as a continuation line. -/
theorem classifier_malformed_line_behavior
    (pc : PendingCommand) (line : List Char)
    (hnd : ¬((line.take 3).length = 3 ∧ (∀ c ∈ line.take 3, isDigitCh c = true))) :
    ((line.drop 3).head? = some ' ' →
       handleLine pc line
         = (none, some (.ftpError (jsParseInt (line.take 3)) (line.drop 4)))
       ∧ ∀ v : Int, jsParseInt (line.take 3) = some v → v < 100)
    ∧ ((line.drop 3).head? ≠ some ' ' →
       handleLine pc line = (some { pc with timerArmed := false }, none))
    ∧ (∀ v m, (handleLine pc line).2 ≠ some (.success v m)) := by
  have hlen : (line.take 3).length ≤ 3 := by
    simp [List.length_take]
  have hlt := jsParseInt_lt_100 (line.take 3) hlen hnd
  have hterm : (line.drop 3).head? = some ' ' →
      handleLine pc line
        = (none, some (.ftpError (jsParseInt (line.take 3)) (line.drop 4))) := by
    intro hsep
    unfold handleLine
    rw [if_pos hsep]
    rcases hj : jsParseInt (line.take 3) with _ | v
    · simp only []
    · have hv := hlt v hj
      simp only []
      rw [if_neg (by rintro ⟨hx, -, -⟩; omega),
          if_neg (by rintro ⟨hx, -⟩; omega)]
  refine ⟨fun hsep => ⟨hterm hsep, hlt⟩, ?_, ?_⟩
  · intro hsep
    unfold handleLine
    rw [if_neg hsep]
  · intro v m
    by_cases hsep : (line.drop 3).head? = some ' '
    · rw [hterm hsep]
      simp
    · unfold handleLine
      rw [if_neg hsep]
      simp

/-- Witness for C9 amended: the terminal-marked malformed line `abc hello`
rejects as an FTP error with no code, and the continuation-marked
malformed line `abcdef` is ignored. -/
theorem classifier_malformed_line_behavior_witness :
    handleLine ⟨"PWD".data, false, true⟩ ("abc hello".data)
      = (none, some (.ftpError none ("hello".data)))
    ∧ handleLine ⟨"PWD".data, false, true⟩ ("abcdef".data)
      = (some ⟨"PWD".data, false, false⟩, none) := by
  constructor
  · have h := (classifier_malformed_line_behavior ⟨"PWD".data, false, true⟩
      ("abc hello".data) (by decide)).1 (by decide)
    have hj : jsParseInt (("abc hello".data).take 3) = none := by decide
    rw [hj] at h
    exact h.1
  · exact (classifier_malformed_line_behavior ⟨"PWD".data, false, true⟩
      ("abcdef".data) (by decide)).2.1 (by decide)


/-- `joinGroups` on a cons with nonempty tail inserts a comma. -/
theorem joinGroups_cons (d : List Char) (ds : List (List Char)) (h : ds ≠ []) :
    joinGroups (d :: ds) = d ++ ',' :: joinGroups ds := by
  cases ds with
  | nil => cases h rfl
  | cons e es => rfl

/-- Soundness of `parseGroups`: a successful parse decomposes the input
into `n` nonempty all-digit groups joined by commas, followed by the rest. -/
theorem parseGroups_sound (n : Nat) :
    ∀ (s : List Char) (ds : List (List Char)) (rest : List Char),
      parseGroups n s = some (ds, rest) →
      s = joinGroups ds ++ rest ∧ ds.length = n ∧
        ∀ d ∈ ds, d ≠ [] ∧ (∀ c ∈ d, isDigitCh c = true) := by
  induction n using Nat.strong_induction_on with
  | _ n ih =>
    intro s ds rest h
    match n with
    | 0 =>
      simp only [parseGroups, Option.some.injEq, Prod.mk.injEq] at h
      obtain ⟨rfl, rfl⟩ := h
      simp [joinGroups]
    | 1 =>
      simp only [parseGroups] at h
      by_cases he : (s.takeWhile isDigitCh).isEmpty
      · rw [if_pos he] at h
        cases h
      · rw [if_neg he] at h
        simp only [Option.some.injEq, Prod.mk.injEq] at h
        obtain ⟨rfl, rfl⟩ := h
        have hne : s.takeWhile isDigitCh ≠ [] := by
          intro hx
          rw [hx] at he
          exact he rfl
        have hj : joinGroups [s.takeWhile isDigitCh] = s.takeWhile isDigitCh := rfl
        refine ⟨by rw [hj]; exact (List.takeWhile_append_dropWhile isDigitCh s).symm,
          by simp, ?_⟩
        intro d hd
        rw [List.mem_singleton] at hd
        subst hd
        exact ⟨hne, fun c hc => List.mem_takeWhile_imp hc⟩
    | m + 2 =>
      simp only [parseGroups] at h
      by_cases he : (s.takeWhile isDigitCh).isEmpty
      · rw [if_pos he] at h
        cases h
      · rw [if_neg he] at h
        have hne : s.takeWhile isDigitCh ≠ [] := by
          intro hx
          rw [hx] at he
          exact he rfl
        split at h
        · cases h
        · rename_i c r heq
          by_cases hc : c = ','
          · rw [if_pos hc] at h
            rcases hp : parseGroups (m + 1) r with _ | ⟨ds', rest'⟩
            · rw [hp] at h
              cases h
            · rw [hp] at h
              simp only [Option.map_some', Option.some.injEq, Prod.mk.injEq] at h
              obtain ⟨rfl, rfl⟩ := h
              obtain ⟨hr, hlen, hgood⟩ := ih (m + 1) (by omega) r ds' rest' hp
              have hds' : ds' ≠ [] := by
                intro hx
                rw [hx] at hlen
                simp at hlen
              refine ⟨?_, by simp [hlen], ?_⟩
              · rw [joinGroups_cons _ _ hds']
                subst hc
                calc s = s.takeWhile isDigitCh ++ s.dropWhile isDigitCh :=
                      (List.takeWhile_append_dropWhile isDigitCh s).symm
                  _ = s.takeWhile isDigitCh ++ (',' :: r) := by rw [heq]
                  _ = s.takeWhile isDigitCh ++ (',' :: (joinGroups ds' ++ rest')) := by
                      rw [← hr]
                  _ = (s.takeWhile isDigitCh ++ ',' :: joinGroups ds') ++ rest' := by
                      simp [List.append_assoc]
              · intro d hd
                rcases List.mem_cons.1 hd with rfl | hm
                · exact ⟨hne, fun c hc => List.mem_takeWhile_imp hc⟩
                · exact hgood d hm
          · rw [if_neg hc] at h
            cases h

/-- Soundness of `matchPasvAt`: a match here means the input starts with
the literal six-group pattern. -/
theorem matchPasvAt_sound (s : List Char) (ds : List (List Char))
    (h : matchPasvAt s = some ds) :
    ∃ post, s = '(' :: (joinGroups ds ++ ')' :: post)
      ∧ ds.length = 6 ∧ ∀ d ∈ ds, d ≠ [] ∧ (∀ c ∈ d, isDigitCh c = true) := by
  cases s with
  | nil => simp [matchPasvAt] at h
  | cons c rest =>
    simp only [matchPasvAt] at h
    by_cases hc : c = '('
    · rw [if_pos hc] at h
      rcases hp : parseGroups 6 rest with _ | ⟨ds', r⟩
      · rw [hp] at h
        cases h
      · rw [hp] at h
        simp only [afterGroups] at h
        by_cases hr : r.head? = some ')'
        · rw [if_pos hr] at h
          simp only [Option.some.injEq] at h
          obtain ⟨hs, hlen, hgood⟩ := parseGroups_sound 6 rest ds' r hp
          rcases r with _ | ⟨y, t⟩
          · cases hr
          · simp only [List.head?_cons, Option.some.injEq] at hr
            subst hr
            subst h
            exact ⟨t, by rw [hc, hs], hlen, hgood⟩
        · rw [if_neg hr] at h
          cases h
    · rw [if_neg hc] at h
      cases h

/-- Soundness of the leftmost scan. -/
theorem scanPasv_sound (s : List Char) (ds : List (List Char))
    (h : scanPasv s = some ds) :
    ∃ pre post, s = pre ++ '(' :: (joinGroups ds ++ ')' :: post)
      ∧ ds.length = 6 ∧ ∀ d ∈ ds, d ≠ [] ∧ (∀ c ∈ d, isDigitCh c = true) := by
  induction s with
  | nil => simp [scanPasv] at h
  | cons c rest ih =>
    simp only [scanPasv] at h
    rcases hm : matchPasvAt (c :: rest) with _ | ds0
    · rw [hm] at h
      simp only [orTry] at h
      obtain ⟨pre, post, hs, hlen, hgood⟩ := ih h
      exact ⟨c :: pre, post, by rw [List.cons_append, hs], hlen, hgood⟩
    · rw [hm] at h
      simp only [orTry, Option.some.injEq] at h
      obtain ⟨post, hs, hlen, hgood⟩ := matchPasvAt_sound (c :: rest) ds0 hm
      subst h
      exact ⟨[], post, by rw [hs]; rfl, hlen, hgood⟩

/-- A successful scan exhibits the declarative six-group pattern. -/
theorem scanPasv_some_hasPattern (s : List Char) (ds : List (List Char))
    (h : scanPasv s = some ds) : hasPasvPattern s := by
  obtain ⟨pre, post, hs, hlen, hgood⟩ := scanPasv_sound s ds h
  rcases ds with _ | ⟨d1, _ | ⟨d2, _ | ⟨d3, _ | ⟨d4, _ | ⟨d5, _ | ⟨d6, _ | ⟨d7, ds'⟩⟩⟩⟩⟩⟩⟩ <;>
      simp only [List.length_cons, List.length_nil] at hlen <;> try omega
  refine ⟨pre, d1, d2, d3, d4, d5, d6, post, ?_,
    (hgood d1 (by simp)).1, List.all_eq_true.2 (hgood d1 (by simp)).2,
    (hgood d2 (by simp)).1, List.all_eq_true.2 (hgood d2 (by simp)).2,
    (hgood d3 (by simp)).1, List.all_eq_true.2 (hgood d3 (by simp)).2,
    (hgood d4 (by simp)).1, List.all_eq_true.2 (hgood d4 (by simp)).2,
    (hgood d5 (by simp)).1, List.all_eq_true.2 (hgood d5 (by simp)).2,
    (hgood d6 (by simp)).1, List.all_eq_true.2 (hgood d6 (by simp)).2⟩
  rw [hs]
  simp [joinGroups, List.append_assoc]

/-- A string containing the six-group pattern contains `(`. -/
theorem hasPasvPattern_mem (s : List Char) (h : hasPasvPattern s) : '(' ∈ s := by
  obtain ⟨pre, d1, d2, d3, d4, d5, d6, post, hs, -⟩ := h
  rw [hs]
  simp

/-- All-digit runs followed by a non-digit split cleanly under
`takeWhile`/`dropWhile`. -/
theorem digits_takeWhile_dropWhile (d : List Char)
    (hdig : ∀ c ∈ d, isDigitCh c = true) (c : Char) (hc : isDigitCh c = false)
    (z : List Char) :
    (d ++ c :: z).takeWhile isDigitCh = d
    ∧ (d ++ c :: z).dropWhile isDigitCh = c :: z := by
  induction d with
  | nil => simp [List.takeWhile_cons, List.dropWhile_cons, hc]
  | cons a d ih =>
    have ha : isDigitCh a = true := hdig a (by simp)
    have ihh := ih (fun x hx => hdig x (by simp [hx]))
    simp [List.takeWhile_cons, List.dropWhile_cons, ha, ihh.1, ihh.2]

/-- One completeness step of `parseGroups` over a literal group-comma
shape. -/
theorem parseGroups_step (m : Nat) (d z : List Char) (hd : d ≠ [])
    (hdig : ∀ c ∈ d, isDigitCh c = true) :
    parseGroups (m + 2) (d ++ ',' :: z)
      = (parseGroups (m + 1) z).map (fun p => (d :: p.1, p.2)) := by
  have ht := digits_takeWhile_dropWhile d hdig ',' (by decide) z
  conv_lhs => rw [parseGroups]
  rw [if_neg (by rw [ht.1]; simpa [List.isEmpty_iff] using hd), ht.1, ht.2]
  simp

/-- Final completeness step of `parseGroups`: one group before a
non-digit stop character. -/
theorem parseGroups_last (d : List Char) (hd : d ≠ [])
    (hdig : ∀ c ∈ d, isDigitCh c = true) (c : Char) (hc : isDigitCh c = false)
    (z : List Char) :
    parseGroups 1 (d ++ c :: z) = some ([d], c :: z) := by
  have ht := digits_takeWhile_dropWhile d hdig c hc z
  conv_lhs => rw [parseGroups]
  rw [if_neg (by rw [ht.1]; simpa [List.isEmpty_iff] using hd), ht.1, ht.2]

/-- A scan that fails everywhere fails at every suffix start. -/
theorem scanPasv_none_matchAt (pre : List Char) :
    ∀ tail : List Char, scanPasv (pre ++ tail) = none → matchPasvAt tail = none := by
  induction pre with
  | nil =>
    intro tail h
    rcases tail with _ | ⟨c, r⟩
    · rfl
    · rw [List.nil_append] at h
      simp only [scanPasv] at h
      rcases hm : matchPasvAt (c :: r) with _ | ds0
      · rfl
      · rw [hm] at h
        simp [orTry] at h
  | cons p pre ih =>
    intro tail h
    rw [List.cons_append] at h
    simp only [scanPasv] at h
    rcases hm : matchPasvAt (p :: (pre ++ tail)) with _ | ds0
    · rw [hm] at h
      simp only [orTry] at h
      exact ih tail h
    · rw [hm] at h
      simp [orTry] at h

/-- Completeness: a message exhibiting the six-group pattern is decoded to
some endpoint (never `MalformedPassiveReply`). -/
theorem hasPasvPattern_parsePasv_ok (msg : List Char) (h : hasPasvPattern msg) :
    ∃ e, parsePasv msg = .ok e := by
  obtain ⟨pre, d1, d2, d3, d4, d5, d6, post, hs,
    h1, a1, h2, a2, h3, a3, h4, a4, h5, a5, h6, a6⟩ := h
  have hall : ∀ (d : List Char), d.all isDigitCh = true →
      ∀ c ∈ d, isDigitCh c = true :=
    fun d hd c hc => List.all_eq_true.1 hd c hc
  have hp : parseGroups 6 (d1 ++ ',' :: (d2 ++ ',' :: (d3 ++ ',' :: (d4 ++
      ',' :: (d5 ++ ',' :: (d6 ++ ')' :: post))))))
      = some ([d1, d2, d3, d4, d5, d6], ')' :: post) := by
    rw [parseGroups_step 4 d1 _ h1 (hall d1 a1),
        parseGroups_step 3 d2 _ h2 (hall d2 a2),
        parseGroups_step 2 d3 _ h3 (hall d3 a3),
        parseGroups_step 1 d4 _ h4 (hall d4 a4),
        parseGroups_step 0 d5 _ h5 (hall d5 a5),
        parseGroups_last d6 h6 (hall d6 a6) ')' (by decide) post]
    rfl
  have hmatch : matchPasvAt
      ('(' :: (d1 ++ ',' :: (d2 ++ ',' :: (d3 ++ ',' :: (d4 ++
        ',' :: (d5 ++ ',' :: (d6 ++ ')' :: post)))))))
      = some [d1, d2, d3, d4, d5, d6] := by
    simp only [matchPasvAt]
    rw [if_pos trivial, hp]
    simp [afterGroups]
  rcases hscan : scanPasv msg with _ | ds
  · exfalso
    have hnone := scanPasv_none_matchAt pre _ (by rw [← hs]; exact hscan)
    rw [hmatch] at hnone
    cases hnone
  · exact ⟨pasvEndpointOf ds, by unfold parsePasv; rw [hscan]; rfl⟩

/-- C7: passive-mode negotiation decodes the fixed six-group pattern —
`"227 Entering Passive Mode (10,0,0,5,78,23)"` yields host `10.0.0.5` and
port `78*256+23 = 19991` — decodes every message exhibiting the pattern to
some endpoint, and fails with `MalformedPassiveReply` for every message in
which the six-group pattern is absent. -/
theorem pasv_negotiation :
    parsePasv ("227 Entering Passive Mode (10,0,0,5,78,23)".data)
      = .ok ⟨"10.0.0.5".data, 19991⟩
    ∧ (∀ msg : List Char, hasPasvPattern msg → ∃ e, parsePasv msg = .ok e)
    ∧ (∀ msg : List Char, ¬hasPasvPattern msg →
        parsePasv msg = .error .malformedPassiveReply) := by
  refine ⟨by decide, hasPasvPattern_parsePasv_ok, ?_⟩
  intro msg hno
  rcases hscan : scanPasv msg with _ | ds
  · unfold parsePasv
    rw [hscan]
    rfl
  · exact absurd (scanPasv_some_hasPattern msg ds hscan) hno

/-- Witness for C7: the documented example decodes, a pattern-bearing
message decodes to some endpoint, and a message without the pattern fails
with `MalformedPassiveReply`. -/
theorem pasv_negotiation_witness :
    parsePasv ("227 Entering Passive Mode (10,0,0,5,78,23)".data)
      = .ok ⟨"10.0.0.5".data, 19991⟩
    ∧ (∃ e, parsePasv ("x(1,2,3,4,5,6)y".data) = .ok e)
    ∧ parsePasv ("200 Command okay".data) = .error .malformedPassiveReply := by
  refine ⟨pasv_negotiation.1, ?_, ?_⟩
  · refine pasv_negotiation.2.1 _ ?_
    exact ⟨"x".data, "1".data, "2".data, "3".data, "4".data, "5".data, "6".data,
      "y".data, by decide, by decide, by decide, by decide, by decide, by decide,
      by decide, by decide, by decide, by decide, by decide, by decide, by decide⟩
  · refine pasv_negotiation.2.2 _ ?_
    intro h
    have hm := hasPasvPattern_mem _ h
    revert hm
    decide

/-- C8: `ensureDir("/a/b/c")`, against a server where the `CWD` probe fails
for `/a/b/c`, `/a/b` and `/a` and directory creation succeeds, issues
exactly three `MKD` attempts, in the order `/a`, `/a/b`, `/a/b/c` (the full
command trace is `CWD /a/b/c, CWD /a/b, CWD /a, MKD /a, MKD /a/b,
MKD /a/b/c`). -/
theorem ensure_dir_three_creations (cdOk : List Char → Bool)
    (mkdErr : List Char → Option (List Char))
    (h1 : cdOk ("/a/b/c".data) = false) (h2 : cdOk ("/a/b".data) = false)
    (h3 : cdOk ("/a".data) = false)
    (h4 : mkdErr ("/a".data) = none) (h5 : mkdErr ("/a/b".data) = none)
    (h6 : mkdErr ("/a/b/c".data) = none) :
    (ensureDir cdOk mkdErr ("/a/b/c".data)).1.filter isMkd
      = [.mkd ("/a".data), .mkd ("/a/b".data), .mkd ("/a/b/c".data)]
    ∧ (ensureDir cdOk mkdErr ("/a/b/c".data)).1
      = [.cwd ("/a/b/c".data), .cwd ("/a/b".data), .cwd ("/a".data),
         .mkd ("/a".data), .mkd ("/a/b".data), .mkd ("/a/b/c".data)] := by
  constructor <;>
    simp +decide [ensureDir, ensureDirFuel, h1, h2, h3, h4, h5, h6, hasFileExt,
      getParentDir, normalizePath, collapseSlashes, beforeLastSlash, parentOfJS,
      isMkd]

/-- Witness for C8 at the concrete all-failing `CWD` oracle. -/
theorem ensure_dir_three_creations_witness :
    (ensureDir (fun _ => false) (fun _ => none) ("/a/b/c".data)).1.filter isMkd
      = [.mkd ("/a".data), .mkd ("/a/b".data), .mkd ("/a/b/c".data)] :=
  (ensure_dir_three_creations (fun _ => false) (fun _ => none)
    rfl rfl rfl rfl rfl rfl).1

/-- C10: `stat` always resolves with a `{exists, size, isFile, isDirectory}`
record and never rejects, cascading `SIZE` → `CWD` probe → parent listing →
`{exists: false, ...}`; consequently `exists` always resolves with a
boolean. -/
theorem stat_never_rejects :
    (∀ (o : FtpOracle) (path : List Char), ∃ info, statJS o path = .ok info)
    ∧ (∀ (o : FtpOracle) (path : List Char) (n : Int),
        o.sizeRes path = .ok n →
        statJS o path = .ok ⟨true, some n, some true, some false⟩)
    ∧ (∀ (o : FtpOracle) (path e : List Char),
        o.sizeRes path = .error e → cdProbe o path = .ok () →
        statJS o path = .ok ⟨true, none, some false, some true⟩)
    ∧ (∀ (o : FtpOracle) (path e e' listing : List Char),
        o.sizeRes path = .error e → cdProbe o path = .error e' →
        o.listRes (getParentDir path) = .ok listing →
        statJS o path = .ok ⟨foundIn listing path, none, none, none⟩)
    ∧ (∀ (o : FtpOracle) (path e e' e2 : List Char),
        o.sizeRes path = .error e → cdProbe o path = .error e' →
        o.listRes (getParentDir path) = .error e2 →
        statJS o path = .ok ⟨false, none, none, none⟩)
    ∧ (∀ (o : FtpOracle) (path : List Char), ∃ b, existsJS o path = .ok b) := by
  have htotal : ∀ (o : FtpOracle) (path : List Char),
      ∃ info, statJS o path = .ok info := by
    intro o path
    unfold statJS
    rcases o.sizeRes path with e | n
    · rcases cdProbe o path with e' | u
      · rcases o.listRes (getParentDir path) with e2 | listing
        · exact ⟨_, rfl⟩
        · exact ⟨_, rfl⟩
      · exact ⟨_, rfl⟩
    · exact ⟨_, rfl⟩
  refine ⟨htotal, ?_, ?_, ?_, ?_, ?_⟩
  · intro o path n hn
    unfold statJS
    rw [hn]
  · intro o path e he hcd
    unfold statJS
    rw [he, hcd]
  · intro o path e e' listing he hcd hl
    unfold statJS
    rw [he, hcd, hl]
  · intro o path e e' e2 he hcd hl
    unfold statJS
    rw [he, hcd, hl]
  · intro o path
    obtain ⟨info, hinfo⟩ := htotal o path
    exact ⟨info.pathExists, by unfold existsJS; rw [hinfo]; rfl⟩

/-- Witness for C10 at an oracle where every probe fails: `stat` resolves
`{exists: false, size: null, isFile: null, isDirectory: null}`. -/
theorem stat_never_rejects_witness :
    statJS ⟨fun _ => .error ("550".data), .error ("550".data),
        fun _ => .error ("550".data), fun _ => .error ("550".data)⟩ ("/x/y".data)
      = .ok ⟨false, none, none, none⟩ :=
  stat_never_rejects.2.2.2.2.1
    ⟨fun _ => .error ("550".data), .error ("550".data),
     fun _ => .error ("550".data), fun _ => .error ("550".data)⟩
    ("/x/y".data) ("550".data) ("550".data) ("550".data) rfl rfl rfl

/-- C1 counterexample: in the current (v2.2.0) `commands.js` variant a
retrieve whose data channel closed with zero bytes resolves successfully
as an empty transfer even though `550 No such file` arrives on the control
channel — not as the failure the claim requires. -/
theorem transfer_550_claim_counterexample :
    runOptimisticJoin .retrieve [] [("550 No such file".data)] = .done []
    ∧ (TransferOutcome.done [] ≠
        TransferOutcome.failed (some 550) ("No such file".data)) := by
  decide

/-- C1 amended: in the reply-waiting implementations (part_003 and the
first `commands.js` variant), a transfer (store, retrieve or list) whose
data channel closed at zero bytes fails with `FTPError{550, "No such
file"}` as soon as that reply arrives within the secondary deadline — the
rejection comes through the still-pending transfer command's listener; in
the optimistic v2.2.0 variant the transfer resolves successfully with an
empty result regardless of the control-channel lines. -/
theorem transfer_550_join_behavior :
    (∀ (k : TransferKind) (cmd chunks : List Char) (armed : Bool)
       (rest : List (List Char)),
       runWaitingJoin k chunks (some ⟨cmd, true, armed⟩)
           (("550 No such file".data) :: rest)
         = .failed (some 550) ("No such file".data))
    ∧ (∀ (k : TransferKind) (lines : List (List Char)),
       runOptimisticJoin k [] lines = .done []) := by
  constructor
  · intro k cmd chunks armed rest
    have hh : handleLine ⟨cmd, true, armed⟩ ("550 No such file".data)
        = (none, some (.ftpError (some 550) ("No such file".data))) := by
      unfold handleLine
      simp +decide
      rw [show jsParseInt (['5', '5', '0'] : List Char) = some 550 from by decide]
      simp +decide
    simp only [runWaitingJoin, hh]
  · intro k lines
    cases k <;> rfl

end MolexFtp
